import Mathlib

/-!
Verification of the autogluon repository slice consisting of
`src/tabular/src/autogluon/tabular/models/_utils/validation_utils.py` (the strict-holdout
validation split utility) and the time-series trainer behaviour described by `spec.md` and
exercised by `src/timeseries/tests/unittests/test_trainer.py`.

The split utility is embedded directly from its Python source.  The trainer, its model
registry, the weighted ensemble and the persistence layer are not part of the repository
slice (only their tests are), so they are modelled from the specification; every such
definition carries a doc comment starting with `Modelled from the spec:`.
-/

namespace Autogluon

/-! ## Definitions -/

/-! ### The strict-holdout split utility (`validation_utils.py`) -/

/-- The fixed filesystem path the utility appends its log lines to. -/
def logPath : String := "/tmp/my_autogluon_log"

/-- Python `int()` applied to a real value: truncation toward zero. -/
def pyTrunc (q : ℚ) : Int :=
  if 0 ≤ q then Int.floor q else Int.ceil q

/-- The rational 1/2, given in normal form so that comparisons with it evaluate inside the
kernel; used by the concrete witnesses. -/
def oneHalf : ℚ := ⟨1, 2, by decide, by decide⟩

/-- Python slice `l[:k]` for an integer `k` (negative indices count from the end,
out-of-range indices clamp). -/
def pySliceTake (l : List α) (k : Int) : List α :=
  if 0 ≤ k then l.take k.toNat else l.take (l.length - (-k).toNat)

/-- Python slice `l[k:]` for an integer `k` (negative indices count from the end,
out-of-range indices clamp). -/
def pySliceDrop (l : List α) (k : Int) : List α :=
  if 0 ≤ k then l.drop k.toNat else l.drop (l.length - (-k).toNat)

/-- Result of `split_strict_val_fold`: the six returned values together with the
side-effect channel `log`, the list of `(path, line)` pairs the call appends to the
filesystem, in order.  The call performs no other external-state modification, so the
`log` field is the whole effect of the call. -/
structure SplitOutput (α β : Type) where
  X : List α
  y : List β
  X_val : List α
  y_val : List β
  sample_weight : Option (List ℚ)
  sample_weight_val : Option (List ℚ)
  log : List (String × String)
deriving DecidableEq

/-- The function `split_strict_val_fold` of
`src/tabular/src/autogluon/tabular/models/_utils/validation_utils.py`.
The environment read `float(os.getenv(AUTOGLUON_STRICT_VAL_HOLDOUT_FRAC, 0))` is modelled
by the parameter `holdout_frac`: the parsed value, `0` when the variable is absent or its
value parses to zero; Python floats are modelled by exact rationals, and the formatting of
the fraction into the second log line is the host language's rendering of the rational.
`X` and `y` are lists of rows; `sample_weight` and `sample_weight_val` are `none` for
Python `None` or a list of per-row weights.  Appending to `/tmp/my_autogluon_log` is
modelled by the `log` field of the output. -/
def split_strict_val_fold (holdout_frac : ℚ) (X : List α) (y : List β)
    (X_val : List α) (y_val : List β)
    (sample_weight sample_weight_val : Option (List ℚ)) : SplitOutput α β :=
  if holdout_frac = 0 then
    ⟨X, y, X_val, y_val, sample_weight, sample_weight_val,
      [(logPath, "strict val mode disabled")]⟩
  else
    let line := "strict val mode used holdout_frac " ++ toString holdout_frac
    let fold_fit_size : Int := pyTrunc ((X.length : ℚ) * (1 - holdout_frac))
    let sw : Option (List ℚ) × Option (List ℚ) :=
      match sample_weight with
      | none => (none, sample_weight_val)
      | some w => (some (pySliceTake w fold_fit_size), some (pySliceDrop w fold_fit_size))
    ⟨pySliceTake X fold_fit_size, pySliceTake y fold_fit_size,
      pySliceDrop X fold_fit_size, pySliceDrop y fold_fit_size,
      sw.1, sw.2, [(logPath, line)]⟩

/-! ### The model registry and collision-safe naming (modelled from the spec) -/

/-- A decimal digit rendered as a character. -/
def digitChar : Nat → Char
  | 0 => '0'
  | 1 => '1'
  | 2 => '2'
  | 3 => '3'
  | 4 => '4'
  | 5 => '5'
  | 6 => '6'
  | 7 => '7'
  | 8 => '8'
  | 9 => '9'
  | _ => '*'

/-- Decimal rendering of a natural number, most significant digit first. -/
def natDecimal (n : Nat) : String :=
  ⟨(Nat.digits 10 n).reverse.map digitChar⟩

/-- Modelled from the spec: the suffixed candidate name `name_k` the registry uses to
resolve name collisions ("`name_2`, `name_3`, …"). -/
def suffixedName (base : String) (k : Nat) : String :=
  base ++ "_" ++ natDecimal k

/-- Modelled from the spec: the registry's search for the lowest unused integer suffix.
`freeSuffixFrom names base fuel start` walks `start`, `start + 1`, … and returns the first
`k` whose suffixed name is not yet registered; `fuel` bounds the walk and the registry
always calls it with fuel `names.length + 1`, which is enough (pigeonhole) to find a free
suffix. -/
def freeSuffixFrom (names : List String) (base : String) : Nat → Nat → Nat
  | 0, start => start
  | fuel + 1, start =>
    if suffixedName base start ∈ names then freeSuffixFrom names base fuel (start + 1)
    else start

/-- Modelled from the spec: `ModelRegistry.register` name resolution — a fresh candidate
name is kept; a candidate that is already registered gets the lowest unused integer suffix
starting at 2. -/
def resolveName (names : List String) (candidate : String) : String :=
  if candidate ∈ names then
    suffixedName candidate (freeSuffixFrom names candidate (names.length + 1) 2)
  else candidate

/-- Modelled from the spec: `ModelRegistry.register` — the registry is the
insertion-ordered list of registered names; the resolved name is appended at the end and
returned.  Registration is a pure function, hence deterministic within one process. -/
def registerName (names : List String) (candidate : String) : String × List String :=
  (resolveName names candidate, names ++ [resolveName names candidate])

/-! ### The trainer orchestrator (modelled from the spec) -/

/-- Modelled from the spec: a registered model entry — its unique name and the raw
validation error-metric value (e.g. MAPE) the external model collaborator produced for
it. -/
structure TrainerModel where
  name : String
  valMetric : ℚ
deriving DecidableEq

/-- Modelled from the spec: the trainer's state — the insertion-ordered model registry,
the ensembling toggle, and the refit-full mapping. -/
structure TrainerState where
  models : List TrainerModel
  enable_ensemble : Bool
  model_full_dict : List (String × String)
deriving DecidableEq

/-- The trainer's `get_model_names`: the registered model names in insertion order. -/
def TrainerState.get_model_names (st : TrainerState) : List String :=
  st.models.map TrainerModel.name

/-- Modelled from the spec: `Trainer._add_model` — register one fitted model under a
collision-resolved name. -/
def addModel (st : TrainerState) (candidate : String) (metric : ℚ) : TrainerState :=
  { st with models := st.models ++ [⟨resolveName st.get_model_names candidate, metric⟩] }

/-- Modelled from the spec: `Trainer.fit` — fit each requested model spec in declaration
order (a spec is the candidate model name together with the validation metric value the
external model collaborator produces for it; the claim concerns valid hyperparameter sets,
so every spec trains successfully), register every resulting model through the
collision-resolving registry, then, if ensembling is enabled and at least two base models
were fitted, fit the weighted ensemble on the out-of-fold predictions and register it
under the reserved name family. -/
def fitModels (st : TrainerState) (specs : List (String × ℚ)) (ensembleMetric : ℚ) :
    TrainerState :=
  let st1 := specs.foldl (fun s spec => addModel s spec.1 spec.2) st
  if st.enable_ensemble ∧ 2 ≤ specs.length then
    addModel st1 "WeightedEnsemble" ensembleMetric
  else st1

/-! ### The leaderboard (modelled from the spec) -/

/-- A leaderboard row: model name, validation score, and the test score that is present
exactly when test data was supplied. -/
structure LeaderboardRow where
  model : String
  score_val : Option ℚ
  score_test : Option ℚ
deriving DecidableEq

/-- Modelled from the spec: the internal loss-sign convention — raw error metrics such as
MAPE are flipped into higher-is-better scores by negation. -/
def flipMetricSign (metricValue : ℚ) : ℚ := -metricValue

/-- Modelled from the spec: `Trainer.leaderboard` — one row per registered model, the
validation score always populated from the stored validation metric, and the test score
populated exactly when test data is supplied; `testEval` is the external evaluation of
each registered model's raw test error-metric on the supplied test data (`none` when no
test data is given). -/
def leaderboard (st : TrainerState) (testEval : Option (String → ℚ)) : List LeaderboardRow :=
  st.models.map fun m =>
    ⟨m.name, some (flipMetricSign m.valMetric),
      match testEval with
      | none => none
      | some f => some (flipMetricSign (f m.name))⟩

/-! ### Refit-full (modelled from the spec) -/

/-- The suffix appended to a model name by refit-full (`ag.constants.REFIT_FULL_SUFFIX`). -/
def REFIT_FULL_SUFFIX : String := "_FULL"

/-- Modelled from the spec: `Trainer.refit_full` — refit the named model (or every
registered model when the keyword `all` is given) on the union of train and validation
data; each refit model is registered under the original name with the `_FULL` suffix
appended, the `(original name, refit name)` pairs are appended to the refit mapping and
returned, and no original entry is removed or changed. -/
def refit_full (st : TrainerState) (target : String) :
    TrainerState × List (String × String) :=
  let targets : List TrainerModel :=
    if target = "all" then st.models else st.models.filter fun m => m.name = target
  let mapping := targets.map fun m => (m.name, m.name ++ REFIT_FULL_SUFFIX)
  ({ st with
      models := st.models ++ targets.map fun m => ⟨m.name ++ REFIT_FULL_SUFFIX, m.valMetric⟩,
      model_full_dict := st.model_full_dict ++ mapping },
    mapping)

/-! ### The weighted ensemble (modelled from the spec) -/

/-- A model's prediction: the forecast values over the forecast index, modelled as exact
rationals. -/
abbrev TSPred := List ℚ

/-- The all-zero prediction vector of a given length. -/
def vecZero (n : Nat) : TSPred := List.replicate n 0

/-- Pointwise sum of two prediction vectors. -/
def vecAdd (u v : TSPred) : TSPred := List.zipWith (· + ·) u v

/-- A prediction vector scaled by a weight. -/
def vecScale (c : ℚ) (v : TSPred) : TSPred := v.map fun x => c * x

/-- Look up a base model's prediction among the gathered per-model predictions; `none`
when the model is absent or its prediction failed (the propagated failure marker). -/
def lookupPred (preds : List (String × Option TSPred)) (name : String) : Option TSPred :=
  match preds.lookup name with
  | some (some p) => some p
  | _ => none

/-- Modelled from the spec: `EnsembleBuilder.predict` (the trainer-side behaviour of
`TimeSeriesGreedyEnsemble.predict`) — the weighted sum over the base models whose
predictions are present, with the weights renormalized over the present models; fails with
`EnsembleUnavailableError` exactly when every base model's prediction is missing. -/
def ensemblePredict (model_to_weight : List (String × ℚ))
    (preds : List (String × Option TSPred)) (horizon : Nat) : Except String TSPred :=
  let present := model_to_weight.filter fun nw => (lookupPred preds nw.1).isSome
  if present.length = 0 then Except.error "EnsembleUnavailableError"
  else
    let total := (present.map Prod.snd).sum
    Except.ok (present.foldl
      (fun acc nw =>
        vecAdd acc (vecScale (nw.2 / total) ((lookupPred preds nw.1).getD (vecZero horizon))))
      (vecZero horizon))

/-! ### Persistence and prediction parity (modelled from the spec) -/

/-- Modelled from the spec: a fitted base model handle as persisted — its name, the
frequency inferred from the training data, and its fitted parameters. -/
structure TSModel where
  name : String
  freq : String
  params : List (String × ℚ)
deriving DecidableEq

/-- Modelled from the spec: the trainer data persisted by `save` — the prediction length
and the registry of fitted models. -/
structure PersistedTrainer where
  prediction_length : Nat
  models : List TSModel
deriving DecidableEq

/-- The on-disk snapshot: a flat tuple encoding of the trainer. -/
abbrev Snapshot := Nat × List (String × String × List (String × ℚ))

/-- Modelled from the spec: `Trainer.save` — serialize the registry and the trainer
settings into one consistent snapshot. -/
def saveTrainer (t : PersistedTrainer) : Snapshot :=
  (t.prediction_length, t.models.map fun m => (m.name, m.freq, m.params))

/-- Modelled from the spec: `Trainer.load` — rebuild the registry from a snapshot. -/
def loadTrainer (s : Snapshot) : PersistedTrainer :=
  ⟨s.1, s.2.map fun r => ⟨r.1, r.2.1, r.2.2⟩⟩

/-- Time-series data: one entry per item, with the item id and its observed series. -/
abbrev TSData := List (String × List ℚ)

/-- Modelled from the spec: the deterministic predict contract of a non-ensemble base
model — predictions over the same item index as the input data, with exactly
`prediction_length` forecast rows per item and a value defined at every position.  The
concrete forecasting rule (last observed value projected forward with a linear drift read
from the fitted parameters) stands in for any deterministic forecaster: what matters is
that the output is a function of the persisted fields and the input data only. -/
def modelPredict (m : TSModel) (prediction_length : Nat) (data : TSData) : TSData :=
  data.map fun it =>
    (it.1, (List.range prediction_length).map fun (k : Nat) =>
      it.2.getLastD 0 + ((k : ℚ) + 1) * ((m.params.lookup "drift").getD 0))

/-! ## Theorems -/

/-- C7: when the environment-controlled holdout fraction is absent or parses to 0
(modelled as `holdout_frac = 0`), `split_strict_val_fold` returns all six of its arguments
unchanged, so the strict-holdout split happens only when a nonzero fraction is configured. -/
theorem split_strict_val_fold_disabled_is_identity {α β : Type} (holdout_frac : ℚ)
    (X : List α) (y : List β) (X_val : List α) (y_val : List β)
    (sample_weight sample_weight_val : Option (List ℚ)) (h : holdout_frac = 0) :
    (split_strict_val_fold holdout_frac X y X_val y_val sample_weight sample_weight_val).X = X ∧
    (split_strict_val_fold holdout_frac X y X_val y_val sample_weight sample_weight_val).y = y ∧
    (split_strict_val_fold holdout_frac X y X_val y_val sample_weight sample_weight_val).X_val
      = X_val ∧
    (split_strict_val_fold holdout_frac X y X_val y_val sample_weight sample_weight_val).y_val
      = y_val ∧
    (split_strict_val_fold holdout_frac X y X_val y_val sample_weight
      sample_weight_val).sample_weight = sample_weight ∧
    (split_strict_val_fold holdout_frac X y X_val y_val sample_weight
      sample_weight_val).sample_weight_val = sample_weight_val := by
  subst h
  simp [split_strict_val_fold]

/-- Witness for C7 at a concrete input. -/
theorem split_strict_val_fold_disabled_is_identity_witness :
    (@split_strict_val_fold ℚ ℚ 0 [1, 2] [3, 4] [5] [6] none (some [7])).X = [1, 2] ∧
    (@split_strict_val_fold ℚ ℚ 0 [1, 2] [3, 4] [5] [6] none (some [7])).y = [3, 4] ∧
    (@split_strict_val_fold ℚ ℚ 0 [1, 2] [3, 4] [5] [6] none (some [7])).X_val = [5] ∧
    (@split_strict_val_fold ℚ ℚ 0 [1, 2] [3, 4] [5] [6] none (some [7])).y_val = [6] ∧
    (@split_strict_val_fold ℚ ℚ 0 [1, 2] [3, 4] [5] [6] none (some [7])).sample_weight = none ∧
    (@split_strict_val_fold ℚ ℚ 0 [1, 2] [3, 4] [5] [6] none
      (some [7])).sample_weight_val = some [7] :=
  @split_strict_val_fold_disabled_is_identity ℚ ℚ 0 [1, 2] [3, 4] [5] [6] none (some [7]) rfl

/-- C8: every call to `split_strict_val_fold`, in both the disabled and the enabled branch,
appends exactly one line, and that line goes to the fixed path `/tmp/my_autogluon_log`;
the `log` channel of the output is the call's entire external effect. -/
theorem split_strict_val_fold_logs_one_line {α β : Type} (holdout_frac : ℚ)
    (X : List α) (y : List β) (X_val : List α) (y_val : List β)
    (sample_weight sample_weight_val : Option (List ℚ)) :
    (split_strict_val_fold holdout_frac X y X_val y_val sample_weight
      sample_weight_val).log.length = 1 ∧
    (split_strict_val_fold holdout_frac X y X_val y_val sample_weight
      sample_weight_val).log.map Prod.fst = [logPath] := by
  by_cases h : holdout_frac = 0 <;>
    simp [split_strict_val_fold, h]

/-- C9: with an enabled holdout fraction (`0 < holdout_frac ≤ 1`), the returned training
rows are the first `int(n * (1 - holdout_frac))` rows of `X` and `y`, the returned
validation rows are the remaining rows, the two parts partition `X` and `y` exactly, and
the caller's `X_val` and `y_val` arguments are discarded: the whole output is independent
of them. -/
theorem split_strict_val_fold_enabled_splits {α β : Type} (holdout_frac : ℚ)
    (X : List α) (y : List β) (X_val : List α) (y_val : List β)
    (sample_weight sample_weight_val : Option (List ℚ))
    (h0 : 0 < holdout_frac) (h1 : holdout_frac ≤ 1) :
    (split_strict_val_fold holdout_frac X y X_val y_val sample_weight sample_weight_val).X
      = X.take (Int.toNat (Int.floor ((X.length : ℚ) * (1 - holdout_frac)))) ∧
    (split_strict_val_fold holdout_frac X y X_val y_val sample_weight sample_weight_val).y
      = y.take (Int.toNat (Int.floor ((X.length : ℚ) * (1 - holdout_frac)))) ∧
    (split_strict_val_fold holdout_frac X y X_val y_val sample_weight sample_weight_val).X_val
      = X.drop (Int.toNat (Int.floor ((X.length : ℚ) * (1 - holdout_frac)))) ∧
    (split_strict_val_fold holdout_frac X y X_val y_val sample_weight sample_weight_val).y_val
      = y.drop (Int.toNat (Int.floor ((X.length : ℚ) * (1 - holdout_frac)))) ∧
    (split_strict_val_fold holdout_frac X y X_val y_val sample_weight sample_weight_val).X ++
      (split_strict_val_fold holdout_frac X y X_val y_val sample_weight
        sample_weight_val).X_val = X ∧
    (split_strict_val_fold holdout_frac X y X_val y_val sample_weight sample_weight_val).y ++
      (split_strict_val_fold holdout_frac X y X_val y_val sample_weight
        sample_weight_val).y_val = y ∧
    (∀ (X_val' : List α) (y_val' : List β),
      split_strict_val_fold holdout_frac X y X_val' y_val' sample_weight sample_weight_val =
        split_strict_val_fold holdout_frac X y X_val y_val sample_weight sample_weight_val) := by
  have hne : holdout_frac ≠ 0 := ne_of_gt h0
  have hq : (0 : ℚ) ≤ (X.length : ℚ) * (1 - holdout_frac) :=
    mul_nonneg (Nat.cast_nonneg _) (by linarith)
  have htr : pyTrunc ((X.length : ℚ) * (1 - holdout_frac))
      = Int.floor ((X.length : ℚ) * (1 - holdout_frac)) := by
    simp [pyTrunc, hq]
  have hfl : (0 : ℤ) ≤ Int.floor ((X.length : ℚ) * (1 - holdout_frac)) :=
    Int.floor_nonneg.mpr hq
  refine ⟨?_, ?_, ?_, ?_, ?_, ?_, ?_⟩ <;>
    simp [split_strict_val_fold, hne, htr, pySliceTake, pySliceDrop, hfl]

/-- Witness for C9 at a concrete input: five rows, fraction 1/2, fit size
`int(5 * (1/2)) = 2`. -/
theorem split_strict_val_fold_enabled_splits_witness :
    (@split_strict_val_fold ℚ ℚ oneHalf [10, 20, 30, 40, 50] [1, 2, 3, 4, 5] [99] [98] none
        none).X
      = [10, 20, 30, 40, 50].take
          (Int.toNat (Int.floor ((([10, 20, 30, 40, 50] : List ℚ).length : ℚ)
            * (1 - oneHalf)))) ∧
    (@split_strict_val_fold ℚ ℚ oneHalf [10, 20, 30, 40, 50] [1, 2, 3, 4, 5] [99] [98] none
        none).y
      = [1, 2, 3, 4, 5].take
          (Int.toNat (Int.floor ((([10, 20, 30, 40, 50] : List ℚ).length : ℚ)
            * (1 - oneHalf)))) ∧
    (@split_strict_val_fold ℚ ℚ oneHalf [10, 20, 30, 40, 50] [1, 2, 3, 4, 5] [99] [98] none
        none).X_val
      = [10, 20, 30, 40, 50].drop
          (Int.toNat (Int.floor ((([10, 20, 30, 40, 50] : List ℚ).length : ℚ)
            * (1 - oneHalf)))) ∧
    (@split_strict_val_fold ℚ ℚ oneHalf [10, 20, 30, 40, 50] [1, 2, 3, 4, 5] [99] [98] none
        none).y_val
      = [1, 2, 3, 4, 5].drop
          (Int.toNat (Int.floor ((([10, 20, 30, 40, 50] : List ℚ).length : ℚ)
            * (1 - oneHalf)))) ∧
    (@split_strict_val_fold ℚ ℚ oneHalf [10, 20, 30, 40, 50] [1, 2, 3, 4, 5] [99] [98] none
        none).X ++
      (@split_strict_val_fold ℚ ℚ oneHalf [10, 20, 30, 40, 50] [1, 2, 3, 4, 5] [99] [98] none
        none).X_val = [10, 20, 30, 40, 50] ∧
    (@split_strict_val_fold ℚ ℚ oneHalf [10, 20, 30, 40, 50] [1, 2, 3, 4, 5] [99] [98] none
        none).y ++
      (@split_strict_val_fold ℚ ℚ oneHalf [10, 20, 30, 40, 50] [1, 2, 3, 4, 5] [99] [98] none
        none).y_val = [1, 2, 3, 4, 5] ∧
    (∀ (X_val' : List ℚ) (y_val' : List ℚ),
      @split_strict_val_fold ℚ ℚ oneHalf [10, 20, 30, 40, 50] [1, 2, 3, 4, 5] X_val' y_val'
          none none =
        @split_strict_val_fold ℚ ℚ oneHalf [10, 20, 30, 40, 50] [1, 2, 3, 4, 5] [99] [98]
          none none) :=
  @split_strict_val_fold_enabled_splits ℚ ℚ oneHalf [10, 20, 30, 40, 50] [1, 2, 3, 4, 5]
    [99] [98] none none (by decide) (by decide)

/-- C10: with a nonzero holdout fraction and `sample_weight = None`, the returned
`sample_weight` is `None` and the returned `sample_weight_val` is the caller's original
argument unchanged, even though the returned validation rows are freshly sliced from `X`
and `y`. -/
theorem split_strict_val_fold_weight_none_passthrough {α β : Type} (holdout_frac : ℚ)
    (X : List α) (y : List β) (X_val : List α) (y_val : List β)
    (sample_weight_val : Option (List ℚ)) (h : holdout_frac ≠ 0) :
    (split_strict_val_fold holdout_frac X y X_val y_val none
      sample_weight_val).sample_weight = none ∧
    (split_strict_val_fold holdout_frac X y X_val y_val none
      sample_weight_val).sample_weight_val = sample_weight_val := by
  simp [split_strict_val_fold, h]

/-- Witness for C10 at a concrete input. -/
theorem split_strict_val_fold_weight_none_passthrough_witness :
    (@split_strict_val_fold ℚ ℚ oneHalf [10, 20] [1, 2] [99] [98] none
      (some [3])).sample_weight = none ∧
    (@split_strict_val_fold ℚ ℚ oneHalf [10, 20] [1, 2] [99] [98] none
      (some [3])).sample_weight_val = some [3] :=
  @split_strict_val_fold_weight_none_passthrough ℚ ℚ oneHalf [10, 20] [1, 2] [99] [98]
    (some [3]) (by decide)

theorem string_eq_of_data_eq {s t : String} (h : s.data = t.data) : s = t := by
  cases s; cases t; simp_all

theorem digitChar_injOn : ∀ a, a < 10 → ∀ b, b < 10 → digitChar a = digitChar b → a = b := by
  decide

theorem map_digitChar_inj : ∀ (l1 l2 : List Nat), (∀ x ∈ l1, x < 10) → (∀ x ∈ l2, x < 10) →
    l1.map digitChar = l2.map digitChar → l1 = l2
  | [], [], _, _, _ => rfl
  | [], _ :: _, _, _, h => by simp at h
  | _ :: _, [], _, _, h => by simp at h
  | a :: l1, b :: l2, h1, h2, h => by
    simp only [List.map_cons, List.cons.injEq] at h
    have hab : a = b :=
      digitChar_injOn a (h1 a (List.mem_cons_self a l1)) b (h2 b (List.mem_cons_self b l2)) h.1
    have htail : l1 = l2 :=
      map_digitChar_inj l1 l2 (fun x hx => h1 x (List.mem_cons_of_mem a hx))
        (fun x hx => h2 x (List.mem_cons_of_mem b hx)) h.2
    rw [hab, htail]

theorem natDecimal_injective : Function.Injective natDecimal := by
  intro m n h
  have hd : (Nat.digits 10 m).reverse.map digitChar = (Nat.digits 10 n).reverse.map digitChar := by
    simpa [natDecimal] using congrArg String.data h
  have hrev : (Nat.digits 10 m).reverse = (Nat.digits 10 n).reverse :=
    map_digitChar_inj _ _
      (fun x hx => Nat.digits_lt_base (by norm_num) (List.mem_reverse.mp hx))
      (fun x hx => Nat.digits_lt_base (by norm_num) (List.mem_reverse.mp hx)) hd
  have hdig : Nat.digits 10 m = Nat.digits 10 n := by
    simpa using congrArg List.reverse hrev
  exact Nat.digits.injective 10 hdig

theorem suffixedName_injective (base : String) : Function.Injective (suffixedName base) := by
  intro k1 k2 h
  apply natDecimal_injective
  apply string_eq_of_data_eq
  have hd := congrArg String.data h
  simp only [suffixedName, String.data_append, List.append_assoc] at hd
  exact List.append_cancel_left (List.append_cancel_left hd)

theorem freeSuffixFrom_ge (names : List String) (base : String) :
    ∀ (fuel start : Nat), start ≤ freeSuffixFrom names base fuel start
  | 0, start => Nat.le_refl start
  | fuel + 1, start => by
    simp only [freeSuffixFrom]
    split
    · exact Nat.le_trans (Nat.le_succ start) (freeSuffixFrom_ge names base fuel (start + 1))
    · exact Nat.le_refl start

theorem freeSuffixFrom_skipped (names : List String) (base : String) :
    ∀ (fuel start j : Nat), start ≤ j → j < freeSuffixFrom names base fuel start →
      suffixedName base j ∈ names
  | 0, start, j, hj, hlt => by
    simp only [freeSuffixFrom] at hlt
    omega
  | fuel + 1, start, j, hj, hlt => by
    simp only [freeSuffixFrom] at hlt
    by_cases hmem : suffixedName base start ∈ names
    · rw [if_pos hmem] at hlt
      rcases Nat.eq_or_lt_of_le hj with heq | hlt'
      · exact heq ▸ hmem
      · exact freeSuffixFrom_skipped names base fuel (start + 1) j hlt' hlt
    · rw [if_neg hmem] at hlt
      omega

theorem freeSuffixFrom_free (names : List String) (base : String) :
    ∀ (fuel start : Nat),
      (∃ j, start ≤ j ∧ j < start + fuel ∧ suffixedName base j ∉ names) →
      suffixedName base (freeSuffixFrom names base fuel start) ∉ names
  | 0, start, h => by
    obtain ⟨j, hj1, hj2, _⟩ := h
    omega
  | fuel + 1, start, h => by
    obtain ⟨j, hj1, hj2, hj3⟩ := h
    simp only [freeSuffixFrom]
    by_cases hmem : suffixedName base start ∈ names
    · rw [if_pos hmem]
      apply freeSuffixFrom_free names base fuel (start + 1)
      refine ⟨j, ?_, by omega, hj3⟩
      rcases Nat.eq_or_lt_of_le hj1 with heq | hlt
      · exact absurd (heq ▸ hmem) hj3
      · omega
    · rw [if_neg hmem]
      exact hmem

theorem exists_free_suffix (names : List String) (base : String) :
    ∃ j, 2 ≤ j ∧ j < 2 + (names.length + 1) ∧ suffixedName base j ∉ names := by
  by_contra hall
  push_neg at hall
  have hsub : ((List.range (names.length + 1)).map fun i => suffixedName base (i + 2))
      ⊆ names := by
    intro s hs
    simp only [List.mem_map, List.mem_range] at hs
    obtain ⟨i, hi, rfl⟩ := hs
    exact hall _ (by omega) (by omega)
  have hinj : Function.Injective fun i => suffixedName base (i + 2) := by
    intro i1 i2 h
    have := suffixedName_injective base h
    omega
  have hnd : ((List.range (names.length + 1)).map fun i => suffixedName base (i + 2)).Nodup :=
    List.Nodup.map hinj (List.nodup_range _)
  have hcard : ((List.range (names.length + 1)).map
      fun i => suffixedName base (i + 2)).toFinset.card = names.length + 1 := by
    rw [List.toFinset_card_of_nodup hnd]
    simp
  have hfsub : ((List.range (names.length + 1)).map
      fun i => suffixedName base (i + 2)).toFinset ⊆ names.toFinset := by
    intro a ha
    rw [List.mem_toFinset] at ha ⊢
    exact hsub ha
  have h1 := Finset.card_le_card hfsub
  have h2 := List.toFinset_card_le names
  omega

theorem resolveName_not_mem (names : List String) (candidate : String) :
    resolveName names candidate ∉ names := by
  unfold resolveName
  split
  · apply freeSuffixFrom_free names candidate (names.length + 1) 2
    obtain ⟨j, hj1, hj2, hj3⟩ := exists_free_suffix names candidate
    exact ⟨j, hj1, by omega, hj3⟩
  · assumption

theorem resolveName_of_not_mem (names : List String) (candidate : String)
    (h : candidate ∉ names) : resolveName names candidate = candidate := by
  simp [resolveName, h]

/-- C1: registering a model under a candidate name that already exists in the registry
never overwrites or renames the existing entries — the registry after `registerName` is
the old registry with exactly the returned name appended — and the new model is registered
under the candidate name with the lowest unused integer suffix `k ≥ 2` (the returned name
carries suffix `k`, is not yet registered, and every smaller suffix `≥ 2` is already
taken).  `registerName` is a pure function of the registry and the candidate, so the
assignment is deterministic across repeated incremental fit calls in one process. -/
theorem registerName_spec (names : List String) (candidate : String)
    (h : candidate ∈ names) :
    (registerName names candidate).2 = names ++ [(registerName names candidate).1] ∧
    (registerName names candidate).1 ∉ names ∧
    ∃ k, 2 ≤ k ∧ (registerName names candidate).1 = suffixedName candidate k ∧
      suffixedName candidate k ∉ names ∧
      ∀ j, 2 ≤ j → j < k → suffixedName candidate j ∈ names := by
  refine ⟨rfl, resolveName_not_mem names candidate, ?_⟩
  have hnm := resolveName_not_mem names candidate
  rw [resolveName, if_pos h] at hnm
  refine ⟨freeSuffixFrom names candidate (names.length + 1) 2,
    freeSuffixFrom_ge names candidate _ 2, ?_, hnm, ?_⟩
  · simp [registerName, resolveName, h]
  · intro j hj2 hjlt
    exact freeSuffixFrom_skipped names candidate _ 2 j hj2 hjlt

/-- Witness for C1 at a concrete registry: registering `DeepAR` into a registry that
already holds `DeepAR` and `DeepAR_2`. -/
theorem registerName_spec_witness :
    (registerName ["DeepAR", "DeepAR_2"] "DeepAR").2
      = ["DeepAR", "DeepAR_2"] ++ [(registerName ["DeepAR", "DeepAR_2"] "DeepAR").1] ∧
    (registerName ["DeepAR", "DeepAR_2"] "DeepAR").1 ∉ ["DeepAR", "DeepAR_2"] ∧
    ∃ k, 2 ≤ k ∧
      (registerName ["DeepAR", "DeepAR_2"] "DeepAR").1 = suffixedName "DeepAR" k ∧
      suffixedName "DeepAR" k ∉ ["DeepAR", "DeepAR_2"] ∧
      ∀ j, 2 ≤ j → j < k → suffixedName "DeepAR" j ∈ ["DeepAR", "DeepAR_2"] :=
  registerName_spec ["DeepAR", "DeepAR_2"] "DeepAR" (by decide)

theorem addModel_length (st : TrainerState) (c : String) (m : ℚ) :
    (addModel st c m).models.length = st.models.length + 1 := by
  simp [addModel]

theorem foldl_addModel_length (specs : List (String × ℚ)) :
    ∀ st : TrainerState,
      (specs.foldl (fun s spec => addModel s spec.1 spec.2) st).models.length
        = st.models.length + specs.length := by
  induction specs with
  | nil => intro st; simp
  | cons spec rest ih =>
    intro st
    simp only [List.foldl_cons, List.length_cons]
    rw [ih, addModel_length]
    omega

/-- C3: one `fit` call on a fresh trainer with `N` model specs registers exactly `N` model
names when ensembling is disabled or `N < 2`, and exactly `N + 1` names when ensembling is
enabled and `N ≥ 2`. -/
theorem fitModels_model_count (specs : List (String × ℚ)) (e : Bool) (em : ℚ) :
    (fitModels ⟨[], e, []⟩ specs em).get_model_names.length
      = specs.length + (if e ∧ 2 ≤ specs.length then 1 else 0) := by
  unfold fitModels
  simp only [TrainerState.get_model_names, List.length_map]
  split
  · rw [addModel_length, foldl_addModel_length]
    simp
  · rw [foldl_addModel_length]
    simp

/-- C5: every leaderboard row of a fitted trainer has a populated validation score, every
row has a populated test score when test data is supplied, and under the internal sign
flip both scores are negative whenever the raw error-metric values (e.g. every MAPE) are
positive. -/
theorem leaderboard_scores_populated_and_negative (st : TrainerState) (f : String → ℚ)
    (hval : ∀ m ∈ st.models, 0 < m.valMetric) (htest : ∀ m ∈ st.models, 0 < f m.name) :
    (∀ row ∈ leaderboard st none, ∃ a, row.score_val = some a ∧ a < 0) ∧
    (∀ row ∈ leaderboard st (some f),
      (∃ a, row.score_val = some a ∧ a < 0) ∧ ∃ b, row.score_test = some b ∧ b < 0) := by
  constructor
  · intro row hrow
    simp only [leaderboard, List.mem_map] at hrow
    obtain ⟨m, hm, rfl⟩ := hrow
    refine ⟨flipMetricSign m.valMetric, rfl, ?_⟩
    have := hval m hm
    simp only [flipMetricSign]
    linarith
  · intro row hrow
    simp only [leaderboard, List.mem_map] at hrow
    obtain ⟨m, hm, rfl⟩ := hrow
    refine ⟨⟨flipMetricSign m.valMetric, rfl, ?_⟩, flipMetricSign (f m.name), rfl, ?_⟩
    · have := hval m hm
      simp only [flipMetricSign]
      linarith
    · have := htest m hm
      simp only [flipMetricSign]
      linarith

/-- Witness for C5 at a concrete fitted trainer with two models and a concrete test
evaluation. -/
theorem leaderboard_scores_populated_and_negative_witness :
    (∀ row ∈ leaderboard ⟨[⟨"SimpleFeedForward", 1⟩, ⟨"DeepAR", 2⟩], true, []⟩ none,
      ∃ a, row.score_val = some a ∧ a < 0) ∧
    (∀ row ∈ leaderboard ⟨[⟨"SimpleFeedForward", 1⟩, ⟨"DeepAR", 2⟩], true, []⟩
        (some fun _ => 3),
      (∃ a, row.score_val = some a ∧ a < 0) ∧ ∃ b, row.score_test = some b ∧ b < 0) :=
  leaderboard_scores_populated_and_negative
    ⟨[⟨"SimpleFeedForward", 1⟩, ⟨"DeepAR", 2⟩], true, []⟩ (fun _ => 3)
    (by decide) (by decide)

theorem filter_name_eq_singleton :
    ∀ (models : List TrainerModel) (target : String),
      (models.map TrainerModel.name).Nodup → target ∈ models.map TrainerModel.name →
      ∃ m : TrainerModel, m.name = target ∧
        models.filter (fun m => m.name = target) = [m]
  | [], _, _, hmem => by simp at hmem
  | m :: rest, target, hnd, hmem => by
    simp only [List.map_cons, List.nodup_cons] at hnd
    by_cases hm : m.name = target
    · refine ⟨m, hm, ?_⟩
      have hrest : rest.filter (fun x => decide (x.name = target)) = [] := by
        rw [List.filter_eq_nil_iff]
        intro x hx
        simp only [decide_eq_true_eq]
        intro hxt
        exact hnd.1 (hm ▸ hxt ▸ List.mem_map_of_mem TrainerModel.name hx)
      simp [List.filter_cons, hm, hrest]
    · have hmem' : target ∈ rest.map TrainerModel.name := by
        rcases List.mem_cons.mp hmem with h | h
        · exact absurd h.symm hm
        · exact h
      obtain ⟨m0, hm0, hf⟩ := filter_name_eq_singleton rest target hnd.2 hmem'
      exact ⟨m0, hm0, by simp [List.filter_cons, hm, hf]⟩

/-- C4: `refit_full` with keyword `all` returns a mapping with exactly one entry per
pre-refit model name, sending it to that name with the `_FULL` suffix appended; the
leaderboard afterwards has exactly the pre-refit row count plus the number of refit
entries; the original models remain in place unchanged (they are the unchanged prefix of
the new registry); and `refit_full` on a single registered model name returns a mapping
with exactly one entry, for that model only. -/
theorem refit_full_spec (st : TrainerState) (target : String) (hne : target ≠ "all")
    (hnd : st.get_model_names.Nodup) (hmem : target ∈ st.get_model_names) :
    (refit_full st "all").2
      = st.models.map (fun m => (m.name, m.name ++ REFIT_FULL_SUFFIX)) ∧
    (leaderboard (refit_full st "all").1 none).length
      = (leaderboard st none).length + (refit_full st "all").2.length ∧
    (refit_full st "all").1.models.take st.models.length = st.models ∧
    (refit_full st target).2 = [(target, target ++ REFIT_FULL_SUFFIX)] := by
  refine ⟨rfl, ?_, ?_, ?_⟩
  · simp [leaderboard, refit_full]
  · simp only [refit_full, if_pos rfl]
    exact List.take_left st.models _
  · obtain ⟨m0, hm0, hf⟩ :=
      filter_name_eq_singleton st.models target hnd hmem
    simp [refit_full, hne, hf, hm0]

/-- Witness for C4 at a concrete fitted trainer with two models, refitting the single
model `Naive`. -/
theorem refit_full_spec_witness :
    (refit_full ⟨[⟨"Naive", 1⟩, ⟨"ETS", 2⟩], true, []⟩ "all").2
      = [⟨"Naive", 1⟩, ⟨"ETS", 2⟩].map
          (fun m : TrainerModel => (m.name, m.name ++ REFIT_FULL_SUFFIX)) ∧
    (leaderboard (refit_full ⟨[⟨"Naive", 1⟩, ⟨"ETS", 2⟩], true, []⟩ "all").1 none).length
      = (leaderboard ⟨[⟨"Naive", 1⟩, ⟨"ETS", 2⟩], true, []⟩ none).length
        + (refit_full ⟨[⟨"Naive", 1⟩, ⟨"ETS", 2⟩], true, []⟩ "all").2.length ∧
    (refit_full ⟨[⟨"Naive", 1⟩, ⟨"ETS", 2⟩], true, []⟩
        "all").1.models.take ([⟨"Naive", 1⟩, ⟨"ETS", 2⟩] : List TrainerModel).length
      = [⟨"Naive", 1⟩, ⟨"ETS", 2⟩] ∧
    (refit_full ⟨[⟨"Naive", 1⟩, ⟨"ETS", 2⟩], true, []⟩ "Naive").2
      = [("Naive", "Naive" ++ REFIT_FULL_SUFFIX)] :=
  refit_full_spec ⟨[⟨"Naive", 1⟩, ⟨"ETS", 2⟩], true, []⟩ "Naive" (by decide) (by decide)
    (by decide)

theorem vecAdd_length (u v : TSPred) : (vecAdd u v).length = min u.length v.length := by
  simp [vecAdd]

theorem vecScale_length (c : ℚ) (v : TSPred) : (vecScale c v).length = v.length := by
  simp [vecScale]

theorem vecZero_length (n : Nat) : (vecZero n).length = n := by
  simp [vecZero]

theorem vecZero_getD : ∀ (n i : Nat), (vecZero n).getD i 0 = 0
  | 0, _ => by simp [vecZero, List.getD]
  | _ + 1, 0 => by simp [vecZero]
  | n + 1, i + 1 => by
    rw [vecZero, List.replicate_succ, List.getD_cons_succ]
    exact vecZero_getD n i

theorem vecAdd_getD : ∀ (u v : TSPred) (i : Nat), i < u.length → i < v.length →
    (vecAdd u v).getD i 0 = u.getD i 0 + v.getD i 0
  | [], _, i, h, _ => by simp at h
  | _ :: _, [], i, _, h => by simp at h
  | a :: u, b :: v, 0, _, _ => by simp [vecAdd]
  | a :: u, b :: v, i + 1, h1, h2 => by
    simp only [vecAdd, List.zipWith_cons_cons, List.getD_cons_succ]
    exact vecAdd_getD u v i (by simpa using h1) (by simpa using h2)

theorem vecScale_getD : ∀ (c : ℚ) (v : TSPred) (i : Nat), i < v.length →
    (vecScale c v).getD i 0 = c * v.getD i 0
  | _, [], i, h => by simp at h
  | c, a :: v, 0, _ => by simp [vecScale]
  | c, a :: v, i + 1, h => by
    simp only [vecScale, List.map_cons, List.getD_cons_succ]
    exact vecScale_getD c v i (by simpa using h)

theorem foldl_vecAdd_spec : ∀ (l : List TSPred) (acc : TSPred),
    (∀ v ∈ l, v.length = acc.length) →
    (l.foldl vecAdd acc).length = acc.length ∧
    ∀ i, i < acc.length →
      (l.foldl vecAdd acc).getD i 0 = acc.getD i 0 + (l.map fun v => v.getD i 0).sum
  | [], acc, _ => ⟨rfl, by simp⟩
  | v :: l, acc, h => by
    have hv : v.length = acc.length := h v (List.mem_cons_self v l)
    have hlen : (vecAdd acc v).length = acc.length := by
      rw [vecAdd_length, hv]
      omega
    have ih := foldl_vecAdd_spec l (vecAdd acc v) fun w hw => by
      rw [hlen]
      exact h w (List.mem_cons_of_mem v hw)
    refine ⟨by simpa [hlen] using ih.1, ?_⟩
    intro i hi
    have hrec := ih.2 i (by rw [hlen]; exact hi)
    simp only [List.foldl_cons, List.map_cons, List.sum_cons]
    rw [hrec, vecAdd_getD acc v i hi (by rw [hv]; exact hi)]
    ring

theorem foldl_map_vecAdd (g : String × ℚ → TSPred) :
    ∀ (l : List (String × ℚ)) (acc : TSPred),
      l.foldl (fun a nw => vecAdd a (g nw)) acc = (l.map g).foldl vecAdd acc
  | [], _ => rfl
  | x :: l, acc => foldl_map_vecAdd g l (vecAdd acc (g x))

theorem map_div_sum (l : List (String × ℚ)) (c : ℚ) :
    (l.map fun nw => nw.2 / c).sum = (l.map Prod.snd).sum / c := by
  induction l with
  | nil => simp
  | cons a l ih => simp [ih, add_div]

/-- C2: when some but not all base model predictions are missing, the ensemble still
returns a combined prediction — the weighted sum over the present base models with the
weights renormalized over them (the renormalized weights sum to 1) — and it fails with
`EnsembleUnavailableError` exactly when every base model's prediction is missing. -/
theorem ensemblePredict_spec (model_to_weight : List (String × ℚ))
    (preds : List (String × Option TSPred)) (horizon : Nat)
    (hw : ∀ nw ∈ model_to_weight, 0 < nw.2)
    (hlen : ∀ nw ∈ model_to_weight,
      ((lookupPred preds nw.1).getD (vecZero horizon)).length = horizon) :
    (ensemblePredict model_to_weight preds horizon = Except.error "EnsembleUnavailableError"
      ↔ ∀ nw ∈ model_to_weight, lookupPred preds nw.1 = none) ∧
    ((∃ nw ∈ model_to_weight, (lookupPred preds nw.1).isSome) →
      ∃ r, ensemblePredict model_to_weight preds horizon = Except.ok r ∧
        r.length = horizon ∧
        ((model_to_weight.filter fun nw => (lookupPred preds nw.1).isSome).map fun nw =>
            nw.2 / ((model_to_weight.filter fun nw =>
              (lookupPred preds nw.1).isSome).map Prod.snd).sum).sum = 1 ∧
        ∀ i, i < horizon →
          r.getD i 0 = ((model_to_weight.filter fun nw =>
              (lookupPred preds nw.1).isSome).map fun nw =>
            nw.2 / ((model_to_weight.filter fun nw =>
                (lookupPred preds nw.1).isSome).map Prod.snd).sum *
              ((lookupPred preds nw.1).getD []).getD i 0).sum) := by
  constructor
  · unfold ensemblePredict
    by_cases hp : (model_to_weight.filter fun nw => (lookupPred preds nw.1).isSome).length = 0
    · rw [if_pos hp]
      simp only [List.length_eq_zero, List.filter_eq_nil_iff] at hp
      simp only [true_iff]
      intro nw hnw
      have := hp nw hnw
      exact Option.not_isSome_iff_eq_none.mp (by simpa using this)
    · rw [if_neg hp]
      simp only [List.length_eq_zero] at hp
      obtain ⟨nw, hnw⟩ := List.exists_mem_of_ne_nil _ hp
      constructor
      · intro h
        exact absurd h (by simp)
      · intro hall
        have h1 := List.of_mem_filter hnw
        have h2 := hall nw (List.mem_of_mem_filter hnw)
        rw [h2] at h1
        simp at h1
  · intro hsome
    obtain ⟨nw0, hnw0, hs0⟩ := hsome
    have hmem0 : nw0 ∈ model_to_weight.filter fun nw => (lookupPred preds nw.1).isSome :=
      List.mem_filter.mpr ⟨hnw0, hs0⟩
    have hne : (model_to_weight.filter fun nw => (lookupPred preds nw.1).isSome) ≠ [] :=
      List.ne_nil_of_mem hmem0
    have hlenne : ¬((model_to_weight.filter fun nw =>
        (lookupPred preds nw.1).isSome).length = 0) := by
      simpa [List.length_eq_zero] using hne
    have htotpos : 0 < ((model_to_weight.filter fun nw =>
        (lookupPred preds nw.1).isSome).map Prod.snd).sum := by
      apply List.sum_pos
      · intro x hx
        simp only [List.mem_map] at hx
        obtain ⟨nw, hnw, rfl⟩ := hx
        exact hw nw (List.mem_of_mem_filter hnw)
      · simpa using hne
    have htotne : ((model_to_weight.filter fun nw =>
        (lookupPred preds nw.1).isSome).map Prod.snd).sum ≠ 0 := ne_of_gt htotpos
    have hglen : ∀ v ∈ (model_to_weight.filter fun nw =>
        (lookupPred preds nw.1).isSome).map fun nw =>
          vecScale (nw.2 / ((model_to_weight.filter fun nw =>
              (lookupPred preds nw.1).isSome).map Prod.snd).sum)
            ((lookupPred preds nw.1).getD (vecZero horizon)),
        v.length = (vecZero horizon).length := by
      intro v hv
      simp only [List.mem_map] at hv
      obtain ⟨nw, hnw, rfl⟩ := hv
      rw [vecScale_length, vecZero_length]
      exact hlen nw (List.mem_of_mem_filter hnw)
    have hfold := foldl_vecAdd_spec _ (vecZero horizon) hglen
    have hok : ensemblePredict model_to_weight preds horizon = Except.ok
        (((model_to_weight.filter fun nw => (lookupPred preds nw.1).isSome).map fun nw =>
          vecScale (nw.2 / ((model_to_weight.filter fun nw =>
              (lookupPred preds nw.1).isSome).map Prod.snd).sum)
            ((lookupPred preds nw.1).getD (vecZero horizon))).foldl vecAdd
          (vecZero horizon)) := by
      simp only [ensemblePredict]
      rw [if_neg hlenne]
      exact congrArg Except.ok (foldl_map_vecAdd _ _ _)
    refine ⟨_, hok, ?_, ?_, ?_⟩
    · rw [hfold.1, vecZero_length]
    · rw [map_div_sum]
      exact div_self htotne
    · intro i hi
      have := hfold.2 i (by rw [vecZero_length]; exact hi)
      rw [this, vecZero_getD, zero_add, List.map_map]
      congr 1
      apply List.map_congr_left
      intro nw hnw
      have hsnw := List.of_mem_filter hnw
      obtain ⟨p, hp⟩ := Option.isSome_iff_exists.mp hsnw
      have hplen : p.length = horizon := by
        have := hlen nw (List.mem_of_mem_filter hnw)
        rw [hp] at this
        simpa using this
      simp only [Function.comp_apply, hp, Option.getD_some]
      rw [vecScale_getD]
      rw [hplen]
      exact hi

/-- Witness for C2 at a concrete two-model equal-weight ensemble with one base model's
prediction missing; the error case is witnessed through the iff read right to left. -/
theorem ensemblePredict_spec_witness :
    (ensemblePredict [("Naive", 1), ("SeasonalNaive", 1)]
        [("Naive", some [1, 2]), ("SeasonalNaive", none)] 2
      = Except.error "EnsembleUnavailableError"
      ↔ ∀ nw ∈ [(("Naive" : String), (1 : ℚ)), ("SeasonalNaive", 1)],
          lookupPred [("Naive", some [1, 2]), ("SeasonalNaive", none)] nw.1 = none) ∧
    ((∃ nw ∈ [(("Naive" : String), (1 : ℚ)), ("SeasonalNaive", 1)],
        (lookupPred [("Naive", some [1, 2]), ("SeasonalNaive", none)] nw.1).isSome) →
      ∃ r, ensemblePredict [("Naive", 1), ("SeasonalNaive", 1)]
          [("Naive", some [1, 2]), ("SeasonalNaive", none)] 2 = Except.ok r ∧
        r.length = 2 ∧
        (([(("Naive" : String), (1 : ℚ)), ("SeasonalNaive", 1)].filter fun nw =>
            (lookupPred [("Naive", some [1, 2]), ("SeasonalNaive", none)] nw.1).isSome).map
            fun nw => nw.2 /
              (([(("Naive" : String), (1 : ℚ)), ("SeasonalNaive", 1)].filter fun nw =>
                (lookupPred [("Naive", some [1, 2]),
                  ("SeasonalNaive", none)] nw.1).isSome).map Prod.snd).sum).sum = 1 ∧
        ∀ i, i < 2 →
          r.getD i 0 = (([(("Naive" : String), (1 : ℚ)), ("SeasonalNaive", 1)].filter
              fun nw => (lookupPred [("Naive", some [1, 2]),
                ("SeasonalNaive", none)] nw.1).isSome).map fun nw =>
            nw.2 / (([(("Naive" : String), (1 : ℚ)), ("SeasonalNaive", 1)].filter fun nw =>
                (lookupPred [("Naive", some [1, 2]),
                  ("SeasonalNaive", none)] nw.1).isSome).map Prod.snd).sum *
              ((lookupPred [("Naive", some [1, 2]),
                ("SeasonalNaive", none)] nw.1).getD []).getD i 0).sum) :=
  ensemblePredict_spec [("Naive", 1), ("SeasonalNaive", 1)]
    [("Naive", some [1, 2]), ("SeasonalNaive", none)] 2 (by decide) (by decide)

theorem map_decode_encode : ∀ l : List TSModel,
    ((l.map fun m => (m.name, m.freq, m.params)).map
      fun r => (⟨r.1, r.2.1, r.2.2⟩ : TSModel)) = l
  | [] => rfl
  | m :: l => by
    simp only [List.map_cons, List.cons.injEq]
    exact ⟨trivial, map_decode_encode l⟩

/-- C6: saving a fitted trainer and reloading it from the snapshot restores the registry
exactly; every reloaded non-ensemble model predicts over the identical item index as the
input data with exactly `prediction_length` rows per item and a value at every forecast
position; and each reloaded model reproduces the prediction output of the corresponding
original model on identical inputs. -/
theorem load_save_roundtrip (t : PersistedTrainer) (data : TSData) :
    loadTrainer (saveTrainer t) = t ∧
    (∀ m ∈ (loadTrainer (saveTrainer t)).models,
      (modelPredict m (loadTrainer (saveTrainer t)).prediction_length data).map Prod.fst
        = data.map Prod.fst ∧
      ∀ it ∈ modelPredict m (loadTrainer (saveTrainer t)).prediction_length data,
        it.2.length = (loadTrainer (saveTrainer t)).prediction_length) ∧
    ∀ i : Nat,
      modelPredict ((loadTrainer (saveTrainer t)).models.getD i ⟨"", "", []⟩)
          (loadTrainer (saveTrainer t)).prediction_length data
        = modelPredict (t.models.getD i ⟨"", "", []⟩) t.prediction_length data := by
  have hrt : loadTrainer (saveTrainer t) = t := by
    cases t with
    | mk pl ms =>
      simp only [loadTrainer, saveTrainer, PersistedTrainer.mk.injEq]
      exact ⟨trivial, map_decode_encode ms⟩
  refine ⟨hrt, ?_, ?_⟩
  · intro m _
    constructor
    · simp [modelPredict, List.map_map, Function.comp]
    · intro it hit
      simp only [modelPredict, List.mem_map] at hit
      obtain ⟨x, _, rfl⟩ := hit
      show ((List.range _).map _).length = _
      rw [List.length_map, List.length_range]
  · intro i
    rw [hrt]

/-- Witness for C6 at a concrete trainer with two models and concrete input data. -/
theorem load_save_roundtrip_witness :
    loadTrainer (saveTrainer ⟨2, [⟨"DeepAR", "H", [("drift", 1)]⟩, ⟨"SFF", "H", []⟩]⟩)
      = ⟨2, [⟨"DeepAR", "H", [("drift", 1)]⟩, ⟨"SFF", "H", []⟩]⟩ ∧
    (∀ m ∈ (loadTrainer (saveTrainer
        ⟨2, [⟨"DeepAR", "H", [("drift", 1)]⟩, ⟨"SFF", "H", []⟩]⟩)).models,
      (modelPredict m (loadTrainer (saveTrainer
          ⟨2, [⟨"DeepAR", "H", [("drift", 1)]⟩, ⟨"SFF", "H", []⟩]⟩)).prediction_length
          [("A", [1, 2]), ("B", [3])]).map Prod.fst
        = [(("A" : String), ([1, 2] : List ℚ)), ("B", [3])].map Prod.fst ∧
      ∀ it ∈ modelPredict m (loadTrainer (saveTrainer
          ⟨2, [⟨"DeepAR", "H", [("drift", 1)]⟩, ⟨"SFF", "H", []⟩]⟩)).prediction_length
          [("A", [1, 2]), ("B", [3])],
        it.2.length = (loadTrainer (saveTrainer
          ⟨2, [⟨"DeepAR", "H", [("drift", 1)]⟩, ⟨"SFF", "H", []⟩]⟩)).prediction_length) ∧
    ∀ i : Nat,
      modelPredict ((loadTrainer (saveTrainer
            ⟨2, [⟨"DeepAR", "H", [("drift", 1)]⟩, ⟨"SFF", "H", []⟩]⟩)).models.getD i
            ⟨"", "", []⟩)
          (loadTrainer (saveTrainer
            ⟨2, [⟨"DeepAR", "H", [("drift", 1)]⟩, ⟨"SFF", "H", []⟩]⟩)).prediction_length
          [("A", [1, 2]), ("B", [3])]
        = modelPredict ((⟨2, [⟨"DeepAR", "H", [("drift", 1)]⟩,
            ⟨"SFF", "H", []⟩]⟩ : PersistedTrainer).models.getD i ⟨"", "", []⟩)
          (⟨2, [⟨"DeepAR", "H", [("drift", 1)]⟩,
            ⟨"SFF", "H", []⟩]⟩ : PersistedTrainer).prediction_length
          [("A", [1, 2]), ("B", [3])] :=
  load_save_roundtrip ⟨2, [⟨"DeepAR", "H", [("drift", 1)]⟩, ⟨"SFF", "H", []⟩]⟩
    [("A", [1, 2]), ("B", [3])]

end Autogluon
